import Mathlib

/-!
Verification of the rs-regex front end: the parser in
`src/engine/parser.rs`, the overflow-checked adder in `src/helper.rs`,
and the code generator whose error type lives in `src/engine/codegen.rs`.
Rust `Vec` push/pop at the back are modelled as `l ++ [x]` /
`List.getLast?`+`List.dropLast`; the context stack, used purely LIFO,
is modelled with cons/head.
-/

namespace RsRegex

/-- The AST type of `parser.rs` (`enum AST`). -/
inductive AST where
  | Char : Char → AST
  | Plus : AST → AST
  | Star : AST → AST
  | Question : AST → AST
  | Or : AST → AST → AST
  | Seq : List AST → AST
deriving Repr

/-- The parse-error type of `parser.rs` (`enum ParseError`). -/
inductive ParseError where
  | InvalidEscape : Nat → Char → ParseError
  | invalidRightParen : Nat → ParseError
  | NoPrev : Nat → ParseError
  | NoRightParen : ParseError
  | Empty : ParseError
deriving Repr, DecidableEq

/-- `parse_escape` from `parser.rs`: the seven metacharacters may be
escaped, anything else is an `InvalidEscape` error. -/
def parse_escape (pos : Nat) (c : Char) : Except ParseError AST :=
  match c with
  | '\\' | '(' | ')' | '|' | '+' | '*' | '?' => Except.ok (AST.Char c)
  | _ => Except.error (ParseError.InvalidEscape pos c)

/-- `enum PSQ` from `parser.rs`. -/
inductive PSQ where
  | Plus
  | Star
  | Question
deriving Repr, DecidableEq

/-- The `match ast_type` inside `parse_plus_star_question`. -/
def psqWrap : PSQ → AST → AST
  | PSQ.Plus, a => AST.Plus a
  | PSQ.Star, a => AST.Star a
  | PSQ.Question, a => AST.Question a

/-- `parse_plus_star_question` from `parser.rs`: pop the last node of
the sequence and wrap it, or fail with `NoPrev` when the sequence is
empty.  The Rust mutates `seq`; here the new sequence is returned. -/
def parse_plus_star_question (seq : List AST) (ast_type : PSQ) (pos : Nat) :
    Except ParseError (List AST) :=
  match seq.getLast? with
  | some prev => Except.ok (seq.dropLast ++ [psqWrap ast_type prev])
  | none => Except.error (ParseError.NoPrev pos)

/-- `fold_or` from `parser.rs`: pop the last alternative, reverse the
rest, and wrap leftwards into a right-associated `Or` chain. -/
def fold_or (seq_or : List AST) : Option AST :=
  if seq_or.length > 1 then
    match seq_or.getLast? with
    | some ast0 => some (seq_or.dropLast.reverse.foldl (fun ast s => AST.Or s ast) ast0)
    | none => none
  else
    seq_or.getLast?

/-- `enum ParseState` local to `parse` in `parser.rs`. -/
inductive ParseState where
  | Char
  | Escape
deriving Repr, DecidableEq

/-- The mutable local state of `parse`: current sequence, current
alternation list, context stack, scanner state. -/
structure ParseCtx where
  seq : List AST
  seq_or : List AST
  stack : List (List AST × List AST)
  state : ParseState
deriving Repr

/-- The `ParseState::Char` arm of the loop body of `parse` in
`parser.rs`, for one character `c` at position `i`.  Note the `'|'`
arm: the Rust takes `seq` into `prev` but then pushes `AST::Char(c)`
onto `seq_or`, exactly as written in the source. -/
def parseCharStep (i : Nat) (c : Char) (seq seq_or : List AST)
    (stack : List (List AST × List AST)) : Except ParseError ParseCtx :=
  if c = '+' then
    match parse_plus_star_question seq PSQ.Plus i with
    | Except.ok seq2 => Except.ok ⟨seq2, seq_or, stack, ParseState.Char⟩
    | Except.error e => Except.error e
  else if c = '*' then
    match parse_plus_star_question seq PSQ.Star i with
    | Except.ok seq2 => Except.ok ⟨seq2, seq_or, stack, ParseState.Char⟩
    | Except.error e => Except.error e
  else if c = '?' then
    match parse_plus_star_question seq PSQ.Question i with
    | Except.ok seq2 => Except.ok ⟨seq2, seq_or, stack, ParseState.Char⟩
    | Except.error e => Except.error e
  else if c = '(' then
    Except.ok ⟨[], [], (seq, seq_or) :: stack, ParseState.Char⟩
  else if c = ')' then
    match stack with
    | (prev, prev_or) :: rest =>
      let seq_or2 := if seq.isEmpty then seq_or else seq_or ++ [AST.Seq seq]
      let prev2 := match fold_or seq_or2 with
        | some ast => prev ++ [ast]
        | none => prev
      Except.ok ⟨prev2, prev_or, rest, ParseState.Char⟩
    | [] => Except.error (ParseError.invalidRightParen i)
  else if c = '|' then
    if seq.isEmpty then
      Except.error (ParseError.NoPrev i)
    else
      Except.ok ⟨[], seq_or ++ [AST.Char c], stack, ParseState.Char⟩
  else if c = '\\' then
    Except.ok ⟨seq, seq_or, stack, ParseState.Escape⟩
  else
    Except.ok ⟨seq ++ [AST.Char c], seq_or, stack, ParseState.Char⟩

/-- One iteration of the scan loop of `parse`, dispatching on the
scanner state. -/
def parseStep (i : Nat) (c : Char) (ctx : ParseCtx) : Except ParseError ParseCtx :=
  match ctx.state with
  | ParseState.Char => parseCharStep i c ctx.seq ctx.seq_or ctx.stack
  | ParseState.Escape =>
    match parse_escape i c with
    | Except.ok ast =>
      Except.ok ⟨ctx.seq ++ [ast], ctx.seq_or, ctx.stack, ParseState.Char⟩
    | Except.error e => Except.error e

/-- The scan loop of `parse` followed by its termination code: a
non-empty stack is `NoRightParen`, the final sequence is pushed if
non-empty, and an empty fold is the `Empty` error. -/
def parseLoop : List Char → Nat → ParseCtx → Except ParseError AST
  | [], _, ctx =>
    match ctx.stack with
    | _ :: _ => Except.error ParseError.NoRightParen
    | [] =>
      let seq_or2 := if ctx.seq.isEmpty then ctx.seq_or else ctx.seq_or ++ [AST.Seq ctx.seq]
      match fold_or seq_or2 with
      | some ast => Except.ok ast
      | none => Except.error ParseError.Empty
  | c :: cs, i, ctx =>
    match parseStep i c ctx with
    | Except.ok ctx2 => parseLoop cs (i + 1) ctx2
    | Except.error e => Except.error e

/-- `parse` from `parser.rs`. -/
def parse (expr : String) : Except ParseError AST :=
  parseLoop expr.toList 0 ⟨[], [], [], ParseState.Char⟩

/-- `usize::MAX` on the 64-bit targets the crate builds for. -/
def usizeMax : Nat := 2 ^ 64 - 1

/-- `<usize as SafeAdd>::safe_add` from `helper.rs`: `checked_add`,
`none` exactly when the mathematical sum is not representable. -/
def usizeSafeAdd (a b : Nat) : Option Nat :=
  if a + b ≤ usizeMax then some (a + b) else none

/-- Generic `safe_add` from `helper.rs`, at the crate's only `SafeAdd`
instance (`usize`).  The Rust writes the sum into `*dst`; here the new
destination value is returned in `Except.ok`. -/
def safe_add {E : Type} (dst src : Nat) (f : Unit → E) : Except E Nat :=
  match usizeSafeAdd dst src with
  | some n => Except.ok n
  | none => Except.error (f ())

/-- `CodeGenError` from `codegen.rs`. -/
inductive CodeGenError where
  | PCoverFlow
  | FailStar
  | FailOr
  | FailQuestion
deriving Repr, DecidableEq

/-- Modelled from the spec: the `Instruction` type that `codegen.rs`
imports from `super::` is not under src/; these are the four opcodes of
§6 (`Char`, `Jump`, `Split`, `Match`), targets being absolute indices. -/
inductive Instruction where
  | Char : Char → Instruction
  | Match : Instruction
  | Jump : Nat → Instruction
  | Split : Nat → Nat → Instruction
deriving Repr, DecidableEq

/-- The error producer handed to `safe_add` by the code generator. -/
def pcErr : Unit → CodeGenError := fun _ => CodeGenError.PCoverFlow

/-- Modelled from the spec: the expression-lowering core of `generate`
(§4.3) is missing from src/ — `codegen.rs` retains only the error type
— so it is taken from the spec text: post-order emission at a running
program counter, every counter advance going through the checked adder
(§4.2, surfacing `PCoverFlow`).  Returns the emitted instructions and
the next free address.  The `FailStar`/`FailOr`/`FailQuestion` variants
arise only from back-patch lookups that a functional lowering resolves
directly, so they are never produced here. -/
def gen_expr : AST → Nat → Except CodeGenError (List Instruction × Nat)
  | AST.Char c, pc =>
    match safe_add pc 1 pcErr with
    | Except.ok pc1 => Except.ok ([Instruction.Char c], pc1)
    | Except.error er => Except.error er
  | AST.Plus e, pc =>
    match gen_expr e pc with
    | Except.ok (code, pc1) =>
      match safe_add pc1 1 pcErr with
      | Except.ok pc2 => Except.ok (code ++ [Instruction.Split pc pc2], pc2)
      | Except.error er => Except.error er
    | Except.error er => Except.error er
  | AST.Star e, pc =>
    match safe_add pc 1 pcErr with
    | Except.ok pc1 =>
      match gen_expr e pc1 with
      | Except.ok (code, pc2) =>
        match safe_add pc2 1 pcErr with
        | Except.ok pc3 =>
          Except.ok (Instruction.Split pc1 pc3 :: (code ++ [Instruction.Jump pc]), pc3)
        | Except.error er => Except.error er
      | Except.error er => Except.error er
    | Except.error er => Except.error er
  | AST.Question e, pc =>
    match safe_add pc 1 pcErr with
    | Except.ok pc1 =>
      match gen_expr e pc1 with
      | Except.ok (code, pc2) => Except.ok (Instruction.Split pc1 pc2 :: code, pc2)
      | Except.error er => Except.error er
    | Except.error er => Except.error er
  | AST.Or e1 e2, pc =>
    match safe_add pc 1 pcErr with
    | Except.ok pc1 =>
      match gen_expr e1 pc1 with
      | Except.ok (code1, pc2) =>
        match safe_add pc2 1 pcErr with
        | Except.ok pc3 =>
          match gen_expr e2 pc3 with
          | Except.ok (code2, pc4) =>
            Except.ok (Instruction.Split pc1 pc3 :: (code1 ++ Instruction.Jump pc4 :: code2), pc4)
          | Except.error er => Except.error er
        | Except.error er => Except.error er
      | Except.error er => Except.error er
    | Except.error er => Except.error er
  | AST.Seq [], pc => Except.ok ([], pc)
  | AST.Seq (e :: es), pc =>
    match gen_expr e pc with
    | Except.ok (code1, pc1) =>
      match gen_expr (AST.Seq es) pc1 with
      | Except.ok (code2, pc2) => Except.ok (code1 ++ code2, pc2)
      | Except.error er => Except.error er
    | Except.error er => Except.error er

/-- Modelled from the spec: `generate` (§4.3) — lower the whole AST
from address 0, then append the terminal `Match`, whose own address
advance is also checked. -/
def generate (ast : AST) : Except CodeGenError (List Instruction) :=
  match gen_expr ast 0 with
  | Except.ok (code, pc) =>
    match safe_add pc 1 pcErr with
    | Except.ok _ => Except.ok (code ++ [Instruction.Match])
    | Except.error er => Except.error er
  | Except.error er => Except.error er

/-- The target addresses embedded in one instruction. -/
def instTargets : Instruction → List Nat
  | Instruction.Jump t => [t]
  | Instruction.Split a b => [a, b]
  | _ => []

/-- A successful `safe_add` returns the exact mathematical sum. -/
theorem safe_add_ok {E : Type} {dst src n : Nat} {f : Unit → E}
    (h : safe_add dst src f = Except.ok n) : n = dst + src := by
  simp only [safe_add, usizeSafeAdd] at h
  split at h <;> simp_all

/-- Lowering invariant: a successful `gen_expr` advances the program
counter by exactly the number of emitted instructions, and every target
embedded in the emitted block is at most the next free address. -/
theorem gen_expr_ok : ∀ (a : AST) (pc : Nat) (code : List Instruction) (pc' : Nat),
    gen_expr a pc = Except.ok (code, pc') →
    pc' = pc + code.length ∧ ∀ inst ∈ code, ∀ t ∈ instTargets inst, t ≤ pc' := by
  intro a pc
  induction a, pc using gen_expr.induct with
  | case1 c pc pc1 hadd =>
    intro code0 pcf hok
    have h1 := safe_add_ok hadd
    simp only [gen_expr, hadd, Except.ok.injEq, Prod.mk.injEq] at hok
    obtain ⟨rfl, rfl⟩ := hok
    refine ⟨by simp; omega, ?_⟩
    intro inst hm
    simp at hm
    subst hm
    simp [instTargets]
  | case2 c pc er hadd =>
    intro code0 pcf hok
    simp [gen_expr, hadd] at hok
  | case3 e pc code pc1 hgen pc2 hadd ih =>
    intro code0 pcf hok
    have h1 := safe_add_ok hadd
    obtain ⟨ihl, iht⟩ := ih code pc1 hgen
    simp only [gen_expr, hgen, hadd, Except.ok.injEq, Prod.mk.injEq] at hok
    obtain ⟨rfl, rfl⟩ := hok
    refine ⟨by simp; omega, ?_⟩
    intro inst hm
    rcases List.mem_append.1 hm with h | h
    · intro t ht
      exact le_trans (iht inst h t ht) (by omega)
    · simp at h
      subst h
      intro t ht
      simp [instTargets] at ht
      rcases ht with rfl | rfl <;> omega
  | case4 e pc code pc1 hgen er hadd ih =>
    intro code0 pcf hok
    simp [gen_expr, hgen, hadd] at hok
  | case5 e pc er hgen ih =>
    intro code0 pcf hok
    simp [gen_expr, hgen] at hok
  | case6 e pc pc1 hadd code pc2 hgen pc3 hadd2 ih =>
    intro code0 pcf hok
    have h1 := safe_add_ok hadd
    have h2 := safe_add_ok hadd2
    obtain ⟨ihl, iht⟩ := ih code pc2 hgen
    simp only [gen_expr, hadd, hgen, hadd2, Except.ok.injEq, Prod.mk.injEq] at hok
    obtain ⟨rfl, rfl⟩ := hok
    refine ⟨by simp; omega, ?_⟩
    intro inst hm
    rcases List.mem_cons.1 hm with h | h
    · subst h
      intro t ht
      simp [instTargets] at ht
      rcases ht with rfl | rfl <;> omega
    · rcases List.mem_append.1 h with h' | h'
      · intro t ht
        exact le_trans (iht inst h' t ht) (by omega)
      · simp at h'
        subst h'
        intro t ht
        simp [instTargets] at ht
        subst ht
        omega
  | case7 e pc pc1 hadd code pc2 hgen er hadd2 ih =>
    intro code0 pcf hok
    simp [gen_expr, hadd, hgen, hadd2] at hok
  | case8 e pc pc1 hadd er hgen ih =>
    intro code0 pcf hok
    simp [gen_expr, hadd, hgen] at hok
  | case9 e pc er hadd =>
    intro code0 pcf hok
    simp [gen_expr, hadd] at hok
  | case10 e pc pc1 hadd code pc2 hgen ih =>
    intro code0 pcf hok
    have h1 := safe_add_ok hadd
    obtain ⟨ihl, iht⟩ := ih code pc2 hgen
    simp only [gen_expr, hadd, hgen, Except.ok.injEq, Prod.mk.injEq] at hok
    obtain ⟨rfl, rfl⟩ := hok
    refine ⟨by simp; omega, ?_⟩
    intro inst hm
    rcases List.mem_cons.1 hm with h | h
    · subst h
      intro t ht
      simp [instTargets] at ht
      rcases ht with rfl | rfl <;> omega
    · intro t ht
      exact iht inst h t ht
  | case11 e pc pc1 hadd er hgen ih =>
    intro code0 pcf hok
    simp [gen_expr, hadd, hgen] at hok
  | case12 e pc er hadd =>
    intro code0 pcf hok
    simp [gen_expr, hadd] at hok
  | case13 e1 e2 pc pc1 hadd1 code1 pc2 hgen1 pc3 hadd2 code2 pc4 hgen2 ih1 ih2 =>
    intro code0 pcf hok
    have h1 := safe_add_ok hadd1
    have h2 := safe_add_ok hadd2
    obtain ⟨ihl1, iht1⟩ := ih1 code1 pc2 hgen1
    obtain ⟨ihl2, iht2⟩ := ih2 code2 pc4 hgen2
    simp only [gen_expr, hadd1, hgen1, hadd2, hgen2, Except.ok.injEq, Prod.mk.injEq] at hok
    obtain ⟨rfl, rfl⟩ := hok
    refine ⟨by simp; omega, ?_⟩
    intro inst hm
    rcases List.mem_cons.1 hm with h | h
    · subst h
      intro t ht
      simp [instTargets] at ht
      rcases ht with rfl | rfl <;> omega
    · rcases List.mem_append.1 h with h' | h'
      · intro t ht
        exact le_trans (iht1 inst h' t ht) (by omega)
      · rcases List.mem_cons.1 h' with h'' | h''
        · subst h''
          intro t ht
          simp [instTargets] at ht
          subst ht
          omega
        · intro t ht
          exact iht2 inst h'' t ht
  | case14 e1 e2 pc pc1 hadd1 code1 pc2 hgen1 pc3 hadd2 er hgen2 ih1 ih2 =>
    intro code0 pcf hok
    simp [gen_expr, hadd1, hgen1, hadd2, hgen2] at hok
  | case15 e1 e2 pc pc1 hadd1 code1 pc2 hgen1 er hadd2 ih1 =>
    intro code0 pcf hok
    simp [gen_expr, hadd1, hgen1, hadd2] at hok
  | case16 e1 e2 pc pc1 hadd1 er hgen1 ih1 =>
    intro code0 pcf hok
    simp [gen_expr, hadd1, hgen1] at hok
  | case17 e1 e2 pc er hadd1 =>
    intro code0 pcf hok
    simp [gen_expr, hadd1] at hok
  | case18 pc =>
    intro code0 pcf hok
    simp only [gen_expr, Except.ok.injEq, Prod.mk.injEq] at hok
    obtain ⟨rfl, rfl⟩ := hok
    simp
  | case19 e es pc code pc1 hgen1 code2 pc2 hgen2 ih1 ih2 =>
    intro code0 pcf hok
    obtain ⟨ihl1, iht1⟩ := ih1 code pc1 hgen1
    obtain ⟨ihl2, iht2⟩ := ih2 code2 pc2 hgen2
    simp only [gen_expr, hgen1, hgen2, Except.ok.injEq, Prod.mk.injEq] at hok
    obtain ⟨rfl, rfl⟩ := hok
    refine ⟨by simp; omega, ?_⟩
    intro inst hm
    rcases List.mem_append.1 hm with h | h
    · intro t ht
      exact le_trans (iht1 inst h t ht) (by omega)
    · intro t ht
      exact iht2 inst h t ht
  | case20 e es pc code pc1 hgen1 er hgen2 ih1 ih2 =>
    intro code0 pcf hok
    simp [gen_expr, hgen1, hgen2] at hok
  | case21 e es pc er hgen1 ih1 =>
    intro code0 pcf hok
    simp [gen_expr, hgen1] at hok

/-- C1: what the code actually does on `"a|b|c"`.  The claim states the
result is `Or(Seq[Char 'a'], Or(Seq[Char 'b'], Seq[Char 'c']))`, as does
the doc comment on `fold_or`; but the `'|'` arm of `parse` takes the
current sequence into `prev` and then pushes `AST::Char('|')` instead of
`AST::Seq(prev)`, so the first two alternatives are lost and replaced by
literal bar characters. -/
theorem parse_alternation_bug_eval :
    parse "a|b|c" =
      Except.ok (AST.Or (AST.Char '|')
        (AST.Or (AST.Char '|') (AST.Seq [AST.Char 'c']))) := rfl

/-- C2: what the code actually does at an unescaped `'|'` in literal
state.  With a non-empty current sequence the sequence is indeed taken
(left empty), but the completed alternative pushed onto the alternation
list is `AST::Char('|')`, not the claimed `Seq` of the taken sequence
(`prev` is unused in the source); `parse "a|b"` therefore yields
`Or(Char '|', Seq [Char 'b'])`. -/
theorem parse_pipe_push_bug_eval :
    parseCharStep 1 '|' [AST.Char 'a'] [] [] =
      Except.ok ⟨[], [AST.Char '|'], [], ParseState.Char⟩ ∧
    parse "a|b" = Except.ok (AST.Or (AST.Char '|') (AST.Seq [AST.Char 'b'])) :=
  ⟨rfl, rfl⟩

/-- C3: in escape state, each of the seven metacharacters is appended
as a literal `Char` node with the state back to literal, and any other
character fails with `InvalidEscape` at its position; in particular
`parse "\x"` fails with `InvalidEscape(1, 'x')` and `parse "\("`
succeeds with the single `Char '('`. -/
theorem parse_escape_spec :
    (∀ (i : Nat) (c : Char) (seq seq_or : List AST) (stack : List (List AST × List AST)),
      (c ∈ ['\\', '(', ')', '|', '+', '*', '?'] →
        parseStep i c ⟨seq, seq_or, stack, ParseState.Escape⟩ =
          Except.ok ⟨seq ++ [AST.Char c], seq_or, stack, ParseState.Char⟩) ∧
      (c ∉ ['\\', '(', ')', '|', '+', '*', '?'] →
        parseStep i c ⟨seq, seq_or, stack, ParseState.Escape⟩ =
          Except.error (ParseError.InvalidEscape i c))) ∧
    parse "\\x" = Except.error (ParseError.InvalidEscape 1 'x') ∧
    parse "\\(" = Except.ok (AST.Seq [AST.Char '(']) := by
  refine ⟨?_, rfl, rfl⟩
  intro i c seq seq_or stack
  constructor
  · intro h
    fin_cases h <;> rfl
  · intro h
    have he : parse_escape i c = Except.error (ParseError.InvalidEscape i c) := by
      unfold parse_escape
      split <;> simp_all
    simp [parseStep, he]

/-- C3 witness: the general escape-state property applied at position 1
to the escapable `'('` and the non-escapable `'x'`. -/
theorem parse_escape_spec_witness :
    parseStep 1 '(' ⟨[], [], [], ParseState.Escape⟩ =
      Except.ok ⟨[AST.Char '('], [], [], ParseState.Char⟩ ∧
    parseStep 1 'x' ⟨[], [], [], ParseState.Escape⟩ =
      Except.error (ParseError.InvalidEscape 1 'x') := by
  constructor
  · exact (parse_escape_spec.1 1 '(' [] [] []).1 (by decide)
  · exact (parse_escape_spec.1 1 'x' [] [] []).2 (by decide)

/-- C4 counterexample: `parse "(a)"` and `parse "a"` are not
structurally equal trees — the group leaves an extra `Seq` wrapper. -/
theorem grouping_not_structural_eq : parse "(a)" ≠ parse "a" := by
  intro h
  injection h with h1
  injection h1 with h2
  injection h2 with h3 h4
  injection h3

/-- C4 amended: `parse "(a)"` yields `Seq[Seq[Char 'a']]` while
`parse "a"` yields `Seq[Char 'a']`: a single pair of parentheses wraps
the group's folded result in one extra `Seq` node around the same inner
structure (semantically equivalent, not structurally identical). -/
theorem grouping_adds_seq_wrapper :
    parse "(a)" = Except.ok (AST.Seq [AST.Seq [AST.Char 'a']]) ∧
    parse "a" = Except.ok (AST.Seq [AST.Char 'a']) := ⟨rfl, rfl⟩

/-- C5: the empty pattern and the empty group both fail with the
distinguished empty-pattern error (`ParseError::Empty` in the source,
`EmptyPattern` in the spec); no empty AST is ever returned. -/
theorem empty_pattern_error :
    parse "" = Except.error ParseError.Empty ∧
    parse "()" = Except.error ParseError.Empty := ⟨rfl, rfl⟩

/-- C6: a quantifier or `'|'` with no preceding expression fails with
`NoPrev` at the offending position (`"*a"` at 0, `"a|*"` at 2, `"|a"`
at 0), and on a non-empty sequence `parse_plus_star_question` pops the
last node and pushes it back wrapped in `Plus`/`Star`/`Question`. -/
theorem quantifier_noprev_spec :
    parse "*a" = Except.error (ParseError.NoPrev 0) ∧
    parse "a|*" = Except.error (ParseError.NoPrev 2) ∧
    parse "|a" = Except.error (ParseError.NoPrev 0) ∧
    (∀ (seq : List AST) (prev : AST) (t : PSQ) (pos : Nat),
      parse_plus_star_question (seq ++ [prev]) t pos =
        Except.ok (seq ++ [psqWrap t prev])) ∧
    (∀ (t : PSQ) (pos : Nat),
      parse_plus_star_question [] t pos = Except.error (ParseError.NoPrev pos)) := by
  refine ⟨rfl, rfl, rfl, ?_, ?_⟩
  · intro seq prev t pos
    simp [parse_plus_star_question, List.getLast?_concat, List.dropLast_concat]
  · intro t pos
    rfl

/-- C7: a `')'` with an empty context stack fails with the
unmatched-right-paren error (`invalidRightParen` in the source) at the
position of the `')'`, and a non-empty stack after the full scan fails
with the unclosed-group error (`NoRightParen` in the source); in
particular `parse "(abc"` and `parse "abc)"`. -/
theorem paren_errors_spec :
    parse "(abc" = Except.error ParseError.NoRightParen ∧
    parse "abc)" = Except.error (ParseError.invalidRightParen 3) ∧
    (∀ (i : Nat) (seq seq_or : List AST),
      parseCharStep i ')' seq seq_or [] =
        Except.error (ParseError.invalidRightParen i)) ∧
    (∀ (i : Nat) (seq seq_or : List AST) (fr : List AST × List AST)
        (rest : List (List AST × List AST)) (st : ParseState),
      parseLoop [] i ⟨seq, seq_or, fr :: rest, st⟩ =
        Except.error ParseError.NoRightParen) := by
  refine ⟨rfl, rfl, ?_, ?_⟩
  · intro i seq seq_or
    rfl
  · intro i seq seq_or fr rest st
    rfl

/-- C8: at the crate's only `SafeAdd` instance (`usize`), `safe_add`
returns `Ok` with the exact mathematical sum as the new destination
whenever the sum is representable, and on overflow never wraps: it
invokes the supplied error producer and returns its result as the
failure. -/
theorem safe_add_spec {E : Type} (dst src : Nat) (f : Unit → E) :
    (dst + src ≤ usizeMax → safe_add dst src f = Except.ok (dst + src)) ∧
    (usizeMax < dst + src → safe_add dst src f = Except.error (f ())) := by
  constructor
  · intro h
    simp [safe_add, usizeSafeAdd, h]
  · intro h
    have hn : ¬ (dst + src ≤ usizeMax) := by omega
    simp [safe_add, usizeSafeAdd, hn]

/-- C8 witness: `2 + 3` is representable and yields `Ok 5`; adding 1 to
`usize::MAX` overflows and returns the producer's error. -/
theorem safe_add_spec_witness :
    safe_add 2 3 pcErr = Except.ok 5 ∧
    safe_add usizeMax 1 pcErr = Except.error CodeGenError.PCoverFlow := by
  constructor
  · exact (safe_add_spec 2 3 pcErr).1 (by norm_num [usizeMax])
  · exact (safe_add_spec usizeMax 1 pcErr).2 (by norm_num [usizeMax])

/-- C9: for every AST, `generate` either returns an instruction
sequence in which every address embedded in a `Split` or `Jump` is a
valid index in `[0, length)` of that sequence, or returns a
`CodeGenError`; it never returns a sequence with an out-of-range
target. -/
theorem generate_targets_in_range (ast : AST) (insns : List Instruction)
    (h : generate ast = Except.ok insns) :
    ∀ inst ∈ insns, ∀ t ∈ instTargets inst, t < insns.length := by
  rcases hg : gen_expr ast 0 with er | p
  · simp [generate, hg] at h
  · obtain ⟨code, pc⟩ := p
    rcases ha : safe_add pc 1 pcErr with er | n
    · simp [generate, hg, ha] at h
    · simp only [generate, hg, ha, Except.ok.injEq] at h
      subst h
      obtain ⟨hlen, htgt⟩ := gen_expr_ok ast 0 code pc hg
      intro inst hm t ht
      rcases List.mem_append.1 hm with h' | h'
      · have hb := htgt inst h' t ht
        simp
        omega
      · simp at h'
        subst h'
        simp [instTargets] at ht

/-- C9 witness: the range property applied to the program generated
for `Star (Char 'a')`, namely `[Split 1 3, Char 'a', Jump 0, Match]`,
at the instruction `Jump 0` and its target 0. -/
theorem generate_targets_in_range_witness : (0 : Nat) < 4 := by
  have h : generate (AST.Star (AST.Char 'a')) =
      Except.ok [Instruction.Split 1 3, Instruction.Char 'a',
        Instruction.Jump 0, Instruction.Match] := by
    simp [generate, gen_expr, safe_add, usizeSafeAdd, usizeMax, pcErr]
  have h2 := generate_targets_in_range (AST.Star (AST.Char 'a'))
      [Instruction.Split 1 3, Instruction.Char 'a', Instruction.Jump 0,
        Instruction.Match] h (Instruction.Jump 0) (by decide) 0 (by decide)
  exact h2

/-- C10: a pattern ending in a dangling unescaped backslash reports no
escape error: the scan ends while in escape state and the termination
code never consults the state, so `parse "a\"` equals `parse "a"` and
`parse "\"` fails with the empty-pattern error; a `'\'` seen in literal
state only flips the state, and finalization treats both states
alike. -/
theorem trailing_backslash_ignored :
    parse "a\\" = parse "a" ∧
    parse "\\" = Except.error ParseError.Empty ∧
    (∀ (i : Nat) (seq seq_or : List AST) (stack : List (List AST × List AST)),
      parseStep i '\\' ⟨seq, seq_or, stack, ParseState.Char⟩ =
        Except.ok ⟨seq, seq_or, stack, ParseState.Escape⟩) ∧
    (∀ (i : Nat) (seq seq_or : List AST) (stack : List (List AST × List AST)),
      parseLoop [] i ⟨seq, seq_or, stack, ParseState.Escape⟩ =
        parseLoop [] i ⟨seq, seq_or, stack, ParseState.Char⟩) := by
  refine ⟨rfl, rfl, ?_, ?_⟩
  · intro i seq seq_or stack
    rfl
  · intro i seq seq_or stack
    cases stack <;> rfl

end RsRegex
